import Mathlib

/-!
Shallow embedding of the Oxford-risk-intern repository.

Two Python scripts are modelled:
* `Get_data_via_API.py` — fetches a JSON array of asset records over HTTP and
  writes it to `assets_data.csv` with `csv.DictWriter`.
* `Asset_personality_analysis.py` — loads two CSV tables, inner-joins them on
  `_id`, filters to GBP rows, and derives aggregate tables (per-entity totals,
  top holder, correlations, group means, regression sample, Kruskal-Wallis
  inputs).

Tables are lists of records; CSV nulls (pandas `NaN`) in trait columns are
`Option ℚ` with `none` for null; real-number arithmetic is over `ℚ`.
A pandas/NumPy float `NaN` result is modelled as `none`. The flat file written
by the ingestion script is modelled as its character sequence (`List Char`).
-/

set_option autoImplicit false

namespace OxfordRisk

/-- One row of `assets_data.csv` (source: columns used by
`Asset_personality_analysis.py`: `_id`, `asset_currency`, `asset_allocation`,
`asset_value`). -/
structure AssetRecord where
  _id : String
  asset_currency : String
  asset_allocation : String
  asset_value : ℚ
deriving DecidableEq

/-- The five personality trait columns (`trait_cols` in the script). -/
inductive Trait
  | confidence
  | risk_tolerance
  | composure
  | impulsivity
  | impact_desire
deriving DecidableEq, Fintype

/-- One row of `personality.csv`: `_id` plus the five trait columns; a trait
cell may be null (pandas `NaN`), modelled as `none`. -/
structure PersonalityRecord where
  _id : String
  confidence : Option ℚ
  risk_tolerance : Option ℚ
  composure : Option ℚ
  impulsivity : Option ℚ
  impact_desire : Option ℚ
deriving DecidableEq

/-- Column selector for a personality row. -/
def PersonalityRecord.trait (p : PersonalityRecord) : Trait → Option ℚ
  | .confidence => p.confidence
  | .risk_tolerance => p.risk_tolerance
  | .composure => p.composure
  | .impulsivity => p.impulsivity
  | .impact_desire => p.impact_desire

/-- `trait_cols = ['confidence', 'risk_tolerance', 'composure', 'impulsivity',
'impact_desire']` (line 48 of the analysis script). -/
def trait_cols : List Trait :=
  [.confidence, .risk_tolerance, .composure, .impulsivity, .impact_desire]

/-- One row of the merged table: the asset columns together with the matching
personality columns. -/
structure MergedRow where
  asset : AssetRecord
  person : PersonalityRecord
deriving DecidableEq

/-- `merged_data = pd.merge(assets, personality, on="_id", how="inner")`
(line 23): every asset row is paired with every personality row carrying the
same `_id`, in left-major order. -/
def merged_data (assets : List AssetRecord) (personality : List PersonalityRecord) :
    List MergedRow :=
  assets.flatMap fun a =>
    (personality.filter fun p => p._id == a._id).map fun p => ⟨a, p⟩

/-- The GBP row predicate of line 24: `merged_data["asset_currency"] == "GBP"`. -/
def isGBP (r : MergedRow) : Bool :=
  r.asset.asset_currency == "GBP"

/-- `gbp_data = merged_data[merged_data["asset_currency"] == "GBP"]` (line 24). -/
def gbp_data (assets : List AssetRecord) (personality : List PersonalityRecord) :
    List MergedRow :=
  (merged_data assets personality).filter isGBP

/-- All (asset row, personality row) pairs whose identifiers coincide — the
spec-side count of "matching identifier pairs" (§4.2), defined independently
of `merged_data` via the cartesian product. -/
def matchingPairs (assets : List AssetRecord) (personality : List PersonalityRecord) :
    List (AssetRecord × PersonalityRecord) :=
  (assets.flatMap fun a => personality.map fun p => (a, p)).filter
    fun ap => ap.1._id == ap.2._id

/-- The distinct `_id` keys occurring in a row list — the group keys of
`groupby("_id")` (key order is immaterial to the claims; pandas sorts keys
ascending, and any downstream order sensitivity is resolved by the explicit
`sort_values` modelled below). -/
def groupIds (rows : List MergedRow) : List String :=
  (rows.map fun r => r.asset._id).dedup

/-- The summed `asset_value` of the rows carrying a given `_id`
(`groupby("_id")["asset_value"].sum()`). -/
def idTotal (rows : List MergedRow) (i : String) : ℚ :=
  ((rows.filter fun r => r.asset._id == i).map fun r => r.asset.asset_value).sum

/-- Stable descending insertion by the second (total) component: `x` is placed
before the first element whose total is strictly smaller. -/
def insertDescBy (x : String × ℚ) : List (String × ℚ) → List (String × ℚ)
  | [] => [x]
  | y :: ys => if y.2 < x.2 then x :: y :: ys else y :: insertDescBy x ys

/-- `sort_values(by="total_gbp_assets", ascending=False)` as a deterministic
stable sort (the reference does not guarantee an order among ties; this model
fixes one). -/
def sortDescByTotal (l : List (String × ℚ)) : List (String × ℚ) :=
  l.foldr insertDescBy []

/-- `gbp_totals` (lines 28-34): group the GBP rows by `_id`, sum
`asset_value`, and sort descending by the sum. Entries are
`(_id, total_gbp_assets)` pairs. -/
def gbp_totals (rows : List MergedRow) : List (String × ℚ) :=
  sortDescByTotal ((groupIds rows).map fun i => (i, idTotal rows i))

/-- `top_row = gbp_totals.iloc[0]` (line 35): `none` models the `IndexError`
raised on an empty frame. -/
def top_row (rows : List MergedRow) : Option (String × ℚ) :=
  (gbp_totals rows).head?

/-- `personality[personality["_id"] == top_id]["risk_tolerance"].values[0]`
(line 40): the outer `none` models the out-of-bounds `values[0]` access on an
empty selection; the inner `Option ℚ` is the (possibly null) cell itself. -/
def risk_score (personality : List PersonalityRecord) (top_id : String) :
    Option (Option ℚ) :=
  ((personality.filter fun p => p._id == top_id).map fun p => p.risk_tolerance).head?

/-- One row of `gbp_summary` (lines 92-93): `_id`, `total_assets_gbp`, and the
five trait columns acquired by the left merge back to `personality` (null when
the entity has no personality row). -/
structure SummaryRow where
  _id : String
  total_assets_gbp : ℚ
  confidence : Option ℚ
  risk_tolerance : Option ℚ
  composure : Option ℚ
  impulsivity : Option ℚ
  impact_desire : Option ℚ
deriving DecidableEq

/-- Column selector for a summary row. -/
def SummaryRow.trait (r : SummaryRow) : Trait → Option ℚ
  | .confidence => r.confidence
  | .risk_tolerance => r.risk_tolerance
  | .composure => r.composure
  | .impulsivity => r.impulsivity
  | .impact_desire => r.impact_desire

/-- `gbp_summary = gbp_data.groupby("_id")["asset_value"].sum()` left-merged
with `personality` on `_id` (lines 92-93). A left merge keeps every total row:
with no matching personality row the trait cells are null, with several
matching rows the total row is repeated per match. -/
def gbp_summary (rows : List MergedRow) (personality : List PersonalityRecord) :
    List SummaryRow :=
  (groupIds rows).flatMap fun i =>
    let total := idTotal rows i
    match personality.filter fun p => p._id == i with
    | [] => [⟨i, total, none, none, none, none, none⟩]
    | ps => ps.map fun p =>
        ⟨i, total, p.confidence, p.risk_tolerance, p.composure, p.impulsivity, p.impact_desire⟩

/-- The (total, trait) observation pairs available to the Pearson correlation
for one trait: pandas `DataFrame.corr` uses the pairwise complete
observations, i.e. the rows whose trait cell is non-null. -/
def validPairs (rows : List SummaryRow) (t : Trait) : List (ℚ × ℚ) :=
  rows.filterMap fun r => (r.trait t).map fun v => (r.total_assets_gbp, v)

/-- Sum of squared deviations from the mean. -/
def ssd (xs : List ℚ) : ℚ :=
  let m := xs.sum / (xs.length : ℚ)
  (xs.map fun x => (x - m) ^ 2).sum

/-- Sum of products of deviations from the respective means. -/
def spd (ps : List (ℚ × ℚ)) : ℚ :=
  let mx := (ps.map Prod.fst).sum / (ps.length : ℚ)
  let my := (ps.map Prod.snd).sum / (ps.length : ℚ)
  (ps.map fun p => (p.1 - mx) * (p.2 - my)).sum

/-- `correlations = gbp_summary.corr(numeric_only=True)["total_assets_gbp"][t]`
(line 96) for one trait `t`. The float value is
`spd / (sqrt ssd_x * sqrt ssd_y)`; it is `NaN` — modelled as `none` — exactly
when there are no observation pairs or either sum of squared deviations is
zero (fewer than two pairs, or a constant column); otherwise the correlation
is determined by the returned triple `(spd, ssd_x, ssd_y)` (the square root
being irrational, the triple rather than the quotient is returned). -/
def correlations (rows : List SummaryRow) (t : Trait) : Option (ℚ × ℚ × ℚ) :=
  let ps := validPairs rows t
  let sx := ssd (ps.map Prod.fst)
  let sy := ssd (ps.map Prod.snd)
  if ps.length = 0 then none
  else if sx = 0 ∨ sy = 0 then none
  else some (spd ps, sx, sy)

/-- A `gbp_summary` row usable by the regression: `statsmodels` formula API
fits `total_assets_gbp ~ confidence + risk_tolerance + composure + impulsivity
+ impact_desire` (lines 127-128) after dropping rows with a missing value in
any variable of the formula (`missing="drop"`); `total_assets_gbp` itself is a
sum of non-null values, so only the five trait cells can be null. -/
def completeCase (r : SummaryRow) : Bool :=
  r.confidence.isSome && r.risk_tolerance.isSome && r.composure.isSome &&
    r.impulsivity.isSome && r.impact_desire.isSome

/-- The rows actually entering the OLS fit of line 128. The fitted
coefficients are real-valued linear algebra not modelled here; the claims
concern only the sample selection. -/
def fitSample (rows : List SummaryRow) : List SummaryRow :=
  rows.filter completeCase

/-- The observation count reported by the regression summary (`nobs`). -/
def regressionNobs (rows : List SummaryRow) : Nat :=
  (fitSample rows).length

/-- The distinct `asset_allocation` values occurring in a row list — the group
keys of `groupby("asset_allocation")` (key order immaterial to the claims). -/
def categories (rows : List MergedRow) : List String :=
  (rows.map fun r => r.asset.asset_allocation).dedup

/-- The non-null values of one trait column over a row list (`dropna` /
`skipna` semantics of pandas column operations). -/
def traitValues (rows : List MergedRow) (t : Trait) : List ℚ :=
  rows.filterMap fun r => r.person.trait t

/-- Arithmetic mean of a list, `none` on the empty list (pandas `mean` of an
all-null column is `NaN`). -/
def meanOpt (xs : List ℚ) : Option ℚ :=
  if xs.length = 0 then none else some (xs.sum / (xs.length : ℚ))

/-- Round to the nearest integer, ties to even (the IEEE/NumPy rounding rule
behind `DataFrame.round`). -/
def roundHalfEven (q : ℚ) : ℤ :=
  let f := ⌊q⌋
  let r := q - (f : ℚ)
  if r < 1 / 2 then f
  else if 1 / 2 < r then f + 1
  else if 2 ∣ f then f else f + 1

/-- `.round(3)` on a cell. -/
def round3 (q : ℚ) : ℚ :=
  (roundHalfEven (q * 1000) : ℚ) / 1000

/-- One cell of `mean_traits_by_type = gbp_data.groupby("asset_allocation")
[trait_cols].mean().round(3)` (line 135): the mean of the non-null values of
trait `t` among the rows of allocation category `c`, rounded to 3 decimals;
`none` when every such cell is null. -/
def groupMeanEntry (rows : List MergedRow) (c : String) (t : Trait) : Option ℚ :=
  (meanOpt (traitValues (rows.filter fun r => r.asset.asset_allocation == c) t)).map round3

/-- The full `mean_traits_by_type` table of line 135: one row per allocation
category present in the GBP subset, one cell per trait. -/
def mean_traits_by_type (rows : List MergedRow) :
    List (String × List (Trait × Option ℚ)) :=
  (categories rows).map fun c =>
    (c, trait_cols.map fun t => (t, groupMeanEntry rows c t))

/-- The projection of a merged row that the group-means pipeline actually
consumes for one trait: its allocation category and its (possibly null) trait
cell. -/
def gmView (t : Trait) (r : MergedRow) : String × Option ℚ :=
  (r.asset.asset_allocation, r.person.trait t)

/-- The argument list built at line 141 for one trait:
`[group[trait].dropna() for name, group in gbp_data.groupby("asset_allocation")]`
— one (possibly empty) value list per allocation category. -/
def kruskalGroups (rows : List MergedRow) (t : Trait) : List (List ℚ) :=
  (categories rows).map fun c =>
    traitValues (rows.filter fun r => r.asset.asset_allocation == c) t

/-- The midrank of value `v` within the pooled sample `all`
(`scipy.stats.rankdata`, average method): one more than the count of strictly
smaller elements, plus half of the remaining tied block. -/
def midrank (all : List ℚ) (v : ℚ) : ℚ :=
  ((all.filter fun x => x < v).length : ℚ) +
    (((all.filter fun x => x == v).length : ℚ) + 1) / 2

/-- `scipy.stats.kruskal` (line 142), modelled from its documented contract
and reference implementation: fewer than two sample groups raises
`ValueError("Need at least two groups in stats.kruskal()")`; an empty sample
group yields the degenerate result `(NaN, NaN)` without raising; an entirely
tied pooled sample raises `ValueError("All numbers are identical in kruskal")`;
otherwise the tie-corrected H statistic is returned. The p-value (a chi-squared
survival probability, transcendental) is outside the rational model and is
carried as `none`. -/
def kruskal (groups : List (List ℚ)) : Except String (Option ℚ × Option ℚ) :=
  if groups.length < 2 then
    .error "Need at least two groups in stats.kruskal()"
  else if groups.any fun g => g.isEmpty then
    .ok (none, none)
  else
    let all := groups.flatten
    let n : ℚ := (all.length : ℚ)
    let tieSum := ((all.dedup.map fun v =>
      let t : ℚ := ((all.filter fun x => x == v).length : ℚ); t ^ 3 - t)).sum
    let correction := 1 - tieSum / (n ^ 3 - n)
    if correction = 0 then
      .error "All numbers are identical in kruskal"
    else
      let ssbn := (groups.map fun g =>
        ((g.map (midrank all)).sum) ^ 2 / (g.length : ℚ)).sum
      .ok (some ((12 / (n * (n + 1)) * ssbn - 3 * (n + 1)) / correction), none)

/-- The Kruskal-Wallis step of lines 139-143 for one trait. -/
def kruskalStep (rows : List MergedRow) (t : Trait) : Except String (Option ℚ × Option ℚ) :=
  kruskal (kruskalGroups rows t)

/-!
Ingestion model (`Get_data_via_API.py`). A parsed JSON object is an
association list from key to the string representation of its value (the
`csv` module stringifies each cell, so no numeric coercion happens on
writing). The written file is its character sequence.
-/

/-- A JSON object as received by `response.json()`, with values already in
their string representation. -/
abbrev JsonObject := List (String × String)

/-- `csv`'s `QUOTE_MINIMAL` rule: a field is quoted when it contains the
delimiter, the quote character, or a line-terminator character. -/
def needsQuoting (s : List Char) : Bool :=
  s.any fun c => c == ',' || c == '"' || c == '\r' || c == '\n'

/-- Quote a field: wrap in quotes, doubling embedded quote characters. -/
def quoteField (s : List Char) : List Char :=
  '"' :: (s.flatMap fun c => if c == '"' then ['"', '"'] else [c]) ++ ['"']

/-- Render one field under `QUOTE_MINIMAL`. -/
def csvField (s : List Char) : List Char :=
  if needsQuoting s then quoteField s else s

/-- Join fields with the delimiter. -/
def joinComma : List (List Char) → List Char
  | [] => []
  | [f] => f
  | f :: fs => f ++ ',' :: joinComma fs

/-- Render one record as a CSV line with the `csv` module's default `\r\n`
terminator. A record consisting of a single empty field is quoted (the
writer's disambiguation against a blank line). -/
def csvLine (fields : List (List Char)) : List Char :=
  (if fields = [[]] then quoteField [] else joinComma (fields.map csvField))
    ++ ['\r', '\n']

/-- `csv.DictWriter(file, fieldnames=data[0].keys())` followed by
`writeheader()` and `writerows(data)` (lines 31-33): the header line holds the
first object's keys in order; each data line holds the values looked up under
those keys (a missing key falls back to the empty rendering of the default
`restval`). -/
def writeCsv (data : List JsonObject) : List Char :=
  match data with
  | [] => []
  | first :: _ =>
    let fieldnames := first.map Prod.fst
    csvLine (fieldnames.map String.toList) ++
      (data.map fun row =>
        csvLine (fieldnames.map fun k => ((row.lookup k).getD "").toList)).flatten

/-- Split a character sequence at each `\r\n` terminator. -/
def splitCRLF : List Char → List (List Char)
  | [] => [[]]
  | [c] => [[c]]
  | c :: d :: rest =>
    if c = '\r' ∧ d = '\n' then [] :: splitCRLF rest
    else
      match splitCRLF (d :: rest) with
      | [] => [[c]]
      | l :: ls => (c :: l) :: ls

/-- Split a character sequence at each delimiter. -/
def splitComma : List Char → List (List Char)
  | [] => [[]]
  | c :: rest =>
    if c = ',' then [] :: splitComma rest
    else
      match splitComma rest with
      | [] => [[c]]
      | l :: ls => (c :: l) :: ls

/-- Re-reading the delimited file as a table: split into `\r\n`-terminated
lines (the content ends with a terminator, so the final empty piece is
dropped), then split each line at the delimiter. Faithful for files none of
whose fields needed quoting — the regime in which the round-trip claim is
settled. -/
def readCsv (s : List Char) : List (List (List Char)) :=
  ((splitCRLF s).dropLast).map splitComma

/-- Outcome of one run of the ingestion script: the content of
`assets_data.csv` when the script opened it (`none` when it never did), plus
the console message. -/
structure IngestOutcome where
  file : Option (List Char)
  message : String
deriving DecidableEq

/-- The post-request behaviour of `Get_data_via_API.py` (lines 25-38), given
the response status, the response text, and the parsed JSON array. On status
200 the script opens `assets_data.csv` in write mode — creating or truncating
it — before testing `data`; a non-empty array is written out and a success
message printed, while an empty array leaves the just-created file empty and
prints the soft-failure message. On any other status nothing is opened and the
error is printed. -/
def runIngestion (status : Nat) (text : String) (data : List JsonObject) :
    IngestOutcome :=
  if status = 200 then
    if data.isEmpty then
      ⟨some [], "failed to extract csv data"⟩
    else
      ⟨some (writeCsv data), "csv data extracted : assets_data.csv"⟩
  else
    ⟨none, "error " ++ toString status ++ " " ++ text⟩

/-!
Concrete fixtures used by witnesses, counterexamples and the concrete
scenarios embedded in the claims.
-/

/-- Assets fixture of the top-holder scenario: entity A holds GBP 100 and 50,
entity B holds GBP 200, entity C holds a non-GBP 1000. -/
def fixAssets : List AssetRecord :=
  [⟨"A", "GBP", "equity", 100⟩,
   ⟨"A", "GBP", "bond", 50⟩,
   ⟨"B", "GBP", "equity", 200⟩,
   ⟨"C", "USD", "equity", 1000⟩]

/-- Personality fixture of the top-holder scenario, with B's risk_tolerance
left as a parameter. -/
def fixPersonality (rB : ℚ) : List PersonalityRecord :=
  [⟨"A", some 1, some 2, some 3, some 4, some 5⟩,
   ⟨"B", some 1, some rB, some 3, some 4, some 5⟩,
   ⟨"C", some 1, some 6, some 3, some 4, some 5⟩]

/-- Assets fixture of the group-means scenario: two GBP equity rows. -/
def gmAssets : List AssetRecord :=
  [⟨"P", "GBP", "equity", 10⟩,
   ⟨"Q", "GBP", "equity", 20⟩]

/-- Personality fixture of the group-means scenario: confidence values 0.2 and
0.8; P's risk_tolerance is null (which must not exclude P's confidence). -/
def gmPersonality : List PersonalityRecord :=
  [⟨"P", some (1 / 5), none, some 1, some 1, some 1⟩,
   ⟨"Q", some (4 / 5), some 2, some 1, some 1, some 1⟩]

/-- Assets fixture with two allocation categories. -/
def kcAssets : List AssetRecord :=
  [⟨"X", "GBP", "equity", 1⟩,
   ⟨"Y", "GBP", "bond", 2⟩]

/-- Personality fixture whose Y row has a null confidence, so the bond group
of the confidence trait becomes empty after `dropna`. -/
def kcPersonality : List PersonalityRecord :=
  [⟨"X", some (3 / 10), some 1, some 1, some 1, some 1⟩,
   ⟨"Y", none, some 1, some 1, some 1, some 1⟩]

/-- Assets fixture whose GBP subset has a single allocation category. -/
def oneCatAssets : List AssetRecord :=
  [⟨"X", "GBP", "equity", 1⟩,
   ⟨"Y", "GBP", "equity", 2⟩]

/-- Personality fixture for the single-category scenario. -/
def oneCatPersonality : List PersonalityRecord :=
  [⟨"X", some 1, some 1, some 1, some 1, some 1⟩,
   ⟨"Y", some 2, some 2, some 2, some 2, some 2⟩]

/-- Summary-table fixture with two entities sharing one constant confidence
value. -/
def constRows : List SummaryRow :=
  [⟨"A", 10, some 2, some 1, some 1, some 1, some 1⟩,
   ⟨"B", 20, some 2, some 1, some 1, some 1, some 1⟩]

/-- A two-object JSON array fixture for the ingestion round trip. -/
def jsonFixture : List JsonObject :=
  [[("_id", "a1"), ("asset_value", "100")],
   [("_id", "b2"), ("asset_value", "250")]]

/-!
Helper lemmas shared by the claim theorems.
-/

theorem mem_merged_data {assets : List AssetRecord} {personality : List PersonalityRecord}
    {r : MergedRow} :
    r ∈ merged_data assets personality ↔
      r.asset ∈ assets ∧ r.person ∈ personality ∧ r.asset._id = r.person._id := by
  unfold merged_data
  simp only [List.mem_flatMap, List.mem_map, List.mem_filter]
  constructor
  · rintro ⟨a, ha, p, ⟨hp, hid⟩, rfl⟩
    exact ⟨ha, hp, (beq_iff_eq.mp hid).symm⟩
  · rintro ⟨ha, hp, hid⟩
    exact ⟨r.asset, ha, r.person, ⟨hp, beq_iff_eq.mpr hid.symm⟩, rfl⟩

theorem length_merged_data (assets : List AssetRecord) (personality : List PersonalityRecord) :
    (merged_data assets personality).length = (matchingPairs assets personality).length := by
  induction assets with
  | nil => rfl
  | cons a as ih =>
    unfold merged_data matchingPairs at *
    simp only [List.flatMap_cons, List.filter_append, List.length_append, ih,
      List.filter_map, List.length_map]
    congr 1
    exact congrArg List.length (List.filter_congr (by intro p _; simp [beq_iff_eq, eq_comm]))

theorem mem_insertDescBy {x y : String × ℚ} {l : List (String × ℚ)} :
    y ∈ insertDescBy x l ↔ y = x ∨ y ∈ l := by
  induction l with
  | nil => simp [insertDescBy]
  | cons z zs ih =>
    by_cases h : z.2 < x.2
    · simp [insertDescBy, h, ih]
    · simp [insertDescBy, h, ih]
      tauto

theorem mem_sortDescByTotal {y : String × ℚ} {l : List (String × ℚ)} :
    y ∈ sortDescByTotal l ↔ y ∈ l := by
  induction l with
  | nil => simp [sortDescByTotal]
  | cons z zs ih =>
    simp only [sortDescByTotal, List.foldr_cons, mem_insertDescBy, List.mem_cons]
    rw [sortDescByTotal] at ih
    tauto

theorem head_insertDescBy_ge {x : String × ℚ} {l : List (String × ℚ)}
    (h : ∀ y ∈ l, ∀ z, l.head? = some z → y.2 ≤ z.2) :
    ∀ y ∈ insertDescBy x l, ∀ z, (insertDescBy x l).head? = some z → y.2 ≤ z.2 := by
  induction l with
  | nil =>
    intro y hy z hz
    simp [insertDescBy] at hy hz
    simp [hy, ← hz]
  | cons w ws ih =>
    by_cases hw : w.2 < x.2
    · intro y hy z hz
      simp only [insertDescBy, if_pos hw, List.head?_cons, Option.some.injEq] at hy hz
      subst hz
      rcases List.mem_cons.mp hy with rfl | hy
      · exact le_refl _
      rcases List.mem_cons.mp hy with rfl | hy
      · exact le_of_lt hw
      · exact le_trans (h y (List.mem_cons_of_mem w hy) w rfl) (le_of_lt hw)
    · intro y hy z hz
      simp only [insertDescBy, if_neg hw, List.head?_cons, Option.some.injEq] at hy hz
      subst hz
      rcases List.mem_cons.mp hy with rfl | hy
      · exact le_refl _
      rcases mem_insertDescBy.mp hy with rfl | hy
      · exact le_of_not_lt hw
      · exact h y (List.mem_cons_of_mem w hy) w rfl

/-- The head of the descending sort is a maximum of the list. -/
theorem head_sortDescByTotal_max {l : List (String × ℚ)} :
    ∀ y ∈ sortDescByTotal l, ∀ z, (sortDescByTotal l).head? = some z → y.2 ≤ z.2 := by
  induction l with
  | nil =>
    intro y hy
    simp [sortDescByTotal] at hy
  | cons w ws ih =>
    exact head_insertDescBy_ge ih

/-- `gbp_totals` consumes only the asset components of the merged rows. -/
theorem gbp_totals_asset_congr {rows rows' : List MergedRow}
    (h : rows.map (fun r => r.asset) = rows'.map (fun r => r.asset)) :
    gbp_totals rows = gbp_totals rows' := by
  have hproj : ∀ (l : List MergedRow) (i : String),
      ((l.filter fun r => r.asset._id == i).map fun r => r.asset.asset_value) =
        (((l.map fun r => r.asset).filter fun a => a._id == i).map
          fun a => a.asset_value) := by
    intro l i
    induction l with
    | nil => rfl
    | cons r rs ih =>
      by_cases hc : r.asset._id == i
      · simp only [List.filter_cons, List.map_cons, hc, if_pos, List.map, ih]
      · simp only [List.filter_cons, List.map_cons, hc] at *
        simpa using ih
  have hids : groupIds rows = groupIds rows' := by
    unfold groupIds
    rw [show (rows.map fun r => r.asset._id)
          = ((rows.map fun r => r.asset).map fun a => a._id) by
        rw [List.map_map]; rfl,
      h, List.map_map]
    rfl
  have htot : ∀ i, idTotal rows i = idTotal rows' i := by
    intro i
    unfold idTotal
    rw [hproj rows i, hproj rows' i, h]
  unfold gbp_totals
  rw [hids]
  congr 1
  exact List.map_congr_left fun i _ => by rw [htot i]

/-!
Claim theorems. The Batteries rational-number operations are sealed
`@[irreducible]`; they are resealed to `semireducible` so that `decide` and
`rfl` can evaluate the pipeline on the concrete fixtures.
-/

unseal Rat.add Rat.mul Rat.sub Rat.inv Rat.ofScientific

/-- C1: the inner join contains exactly the row pairs whose identifier occurs
in both inputs — every merged row combines an asset row and a personality row
with equal identifiers, both identifiers occur in both inputs, and the
cardinality of the join is the number of matching identifier pairs; rows whose
identifier occurs in only one input are dropped. -/
theorem claim_C1 (assets : List AssetRecord) (personality : List PersonalityRecord) :
    (∀ r, r ∈ merged_data assets personality ↔
       r.asset ∈ assets ∧ r.person ∈ personality ∧ r.asset._id = r.person._id) ∧
    (merged_data assets personality).length = (matchingPairs assets personality).length ∧
    (∀ r, r ∈ merged_data assets personality →
       r.asset._id ∈ assets.map (fun a => a._id) ∧
       r.asset._id ∈ personality.map (fun p => p._id)) := by
  refine ⟨fun r => mem_merged_data, length_merged_data assets personality, fun r hr => ?_⟩
  obtain ⟨ha, hp, hid⟩ := mem_merged_data.mp hr
  constructor
  · exact List.mem_map.mpr ⟨r.asset, ha, rfl⟩
  · exact List.mem_map.mpr ⟨r.person, hp, hid.symm⟩

theorem claim_C1_witness :
    (merged_data fixAssets (fixPersonality 7)).length =
      (matchingPairs fixAssets (fixPersonality 7)).length ∧
    ("A" ∈ fixAssets.map (fun a => a._id) ∧
      "A" ∈ (fixPersonality 7).map (fun p => p._id)) :=
  ⟨(claim_C1 fixAssets (fixPersonality 7)).2.1,
    (claim_C1 fixAssets (fixPersonality 7)).2.2
      ⟨⟨"A", "GBP", "equity", 100⟩, ⟨"A", some 1, some 2, some 3, some 4, some 5⟩⟩
      (by decide)⟩

/-- C7: the GBP filter keeps exactly the joined rows whose currency cell is
the literal string "GBP", and filtering the GBP subset again by the same
predicate is the identity. -/
theorem claim_C7 (assets : List AssetRecord) (personality : List PersonalityRecord) :
    (gbp_data assets personality).filter isGBP = gbp_data assets personality ∧
    ∀ r, r ∈ gbp_data assets personality ↔
      r ∈ merged_data assets personality ∧ r.asset.asset_currency = "GBP" := by
  constructor
  · simp [gbp_data, List.filter_filter]
  · intro r
    simp [gbp_data, List.mem_filter, isGBP]

theorem claim_C7_witness :
    (gbp_data fixAssets (fixPersonality 7)).filter isGBP =
      gbp_data fixAssets (fixPersonality 7) :=
  (claim_C7 fixAssets (fixPersonality 7)).1

/-- C2: the top-holder query groups the GBP subset by identifier, sums the
asset values, sorts descending and takes the first row, so every group total
is bounded by the reported top total; on the fixture — A holding GBP 100 and
50, B holding GBP 200, C holding non-GBP 1000 — the totals table is
`[("B", 200), ("A", 150)]`, the top holder is B with total 200, and the
reported risk_tolerance is exactly B's fixture value. -/
theorem claim_C2 :
    (∀ (assets : List AssetRecord) (personality : List PersonalityRecord)
        (x top : String × ℚ),
       x ∈ gbp_totals (gbp_data assets personality) →
       top_row (gbp_data assets personality) = some top → x.2 ≤ top.2) ∧
    (∀ rB : ℚ,
       gbp_totals (gbp_data fixAssets (fixPersonality rB)) = [("B", 200), ("A", 150)] ∧
       top_row (gbp_data fixAssets (fixPersonality rB)) = some ("B", 200) ∧
       risk_score (fixPersonality rB) "B" = some (some rB)) := by
  constructor
  · intro assets personality x top hx htop
    exact head_sortDescByTotal_max x hx top htop
  · intro rB
    have hassets : (gbp_data fixAssets (fixPersonality rB)).map (fun r => r.asset)
        = (gbp_data fixAssets (fixPersonality 7)).map (fun r => r.asset) := rfl
    have htotals : gbp_totals (gbp_data fixAssets (fixPersonality rB))
        = [("B", 200), ("A", 150)] := by
      rw [gbp_totals_asset_congr hassets]
      decide
    refine ⟨htotals, ?_, rfl⟩
    unfold top_row
    rw [htotals]
    rfl

theorem claim_C2_witness :
    ("A", (150 : ℚ)) ∈ gbp_totals (gbp_data fixAssets (fixPersonality 7)) ∧
    top_row (gbp_data fixAssets (fixPersonality 7)) = some ("B", 200) ∧
    ("A", (150 : ℚ)).2 ≤ (("B", (200 : ℚ)) : String × ℚ).2 :=
  ⟨by decide, by decide,
    claim_C2.1 fixAssets (fixPersonality 7) ("A", 150) ("B", 200) (by decide) (by decide)⟩

/-- C10: whenever the GBP subset is non-empty, the top identifier stems from
the inner join, so the personality table holds a row with that identifier and
the unguarded `values[0]` lookup of the risk_tolerance cannot go out of
bounds. -/
theorem claim_C10 (assets : List AssetRecord) (personality : List PersonalityRecord)
    (h : gbp_data assets personality ≠ []) :
    ∃ top, top_row (gbp_data assets personality) = some top ∧
      ∃ rt, risk_score personality top.1 = some rt := by
  set rows := gbp_data assets personality with hrows
  have hne : gbp_totals rows ≠ [] := by
    intro hnil
    rcases List.exists_mem_of_ne_nil rows h with ⟨r, hr⟩
    have hid : r.asset._id ∈ groupIds rows := by
      exact List.mem_dedup.mpr (List.mem_map.mpr ⟨r, hr, rfl⟩)
    have : (r.asset._id, idTotal rows r.asset._id) ∈ gbp_totals rows := by
      exact mem_sortDescByTotal.mpr (List.mem_map.mpr ⟨r.asset._id, hid, rfl⟩)
    rw [hnil] at this
    exact List.not_mem_nil _ this
  obtain ⟨top, tops, htop⟩ : ∃ y l, gbp_totals rows = y :: l := by
    cases hg : gbp_totals rows with
    | nil => exact absurd hg hne
    | cons y l => exact ⟨y, l, rfl⟩
  refine ⟨top, by simp [top_row, htop], ?_⟩
  have htopmem : top ∈ gbp_totals rows := by
    rw [htop]; exact List.mem_cons_self _ _
  have hid : top.1 ∈ groupIds rows := by
    rcases List.mem_map.mp (mem_sortDescByTotal.mp htopmem) with ⟨i, hi, hpair⟩
    rw [← hpair]
    exact hi
  rcases List.mem_map.mp (List.mem_dedup.mp hid) with ⟨r, hr, hrid⟩
  have hmerged : r ∈ merged_data assets personality := by
    have := hrows ▸ hr
    exact (List.mem_filter.mp this).1
  obtain ⟨-, hp, hpid⟩ := mem_merged_data.mp hmerged
  have hpmem : r.person ∈ personality.filter fun p => p._id == top.1 := by
    refine List.mem_filter.mpr ⟨hp, ?_⟩
    rw [beq_iff_eq, ← hpid, hrid]
  cases hf : personality.filter fun p => p._id == top.1 with
  | nil =>
    rw [hf] at hpmem
    exact absurd hpmem (List.not_mem_nil _)
  | cons p ps =>
    exact ⟨p.risk_tolerance, by simp [risk_score, hf]⟩

theorem claim_C10_witness :
    ∃ top, top_row (gbp_data fixAssets (fixPersonality 7)) = some top ∧
      ∃ rt, risk_score (fixPersonality 7) top.1 = some rt :=
  claim_C10 fixAssets (fixPersonality 7) (by decide)

/-- C3 counterexample: on HTTP 200 with a well-formed empty array, the script
does print the soft-failure message and does not raise, but the output file IS
created (empty), because `open(..., "w")` runs before the emptiness test — the
claim's "writes no output file" is false at this input. -/
theorem claim_C3_counterexample :
    (runIngestion 200 "" []).message = "failed to extract csv data" ∧
    (runIngestion 200 "" []).file = some [] ∧
    ¬ (runIngestion 200 "" []).file = none := by
  refine ⟨rfl, rfl, by simp [runIngestion]⟩

/-- C3 (amended): on HTTP 200 with an empty array the script reports the
soft-failure message and does not raise, and the output file is created but
left empty (truncated, no rows written) rather than not written at all. -/
theorem claim_C3 (text : String) :
    runIngestion 200 text [] = ⟨some [], "failed to extract csv data"⟩ := rfl

/-- C4 counterexample: with two allocation categories where null-dropping
empties the bond group of the confidence trait, only one non-empty group
remains, yet the Kruskal-Wallis step returns the degenerate `(NaN, NaN)`
result instead of raising an error — refuting "fails whenever fewer than two
non-empty groups exist". -/
theorem claim_C4_counterexample :
    ((kruskalGroups (gbp_data kcAssets kcPersonality) Trait.confidence).filter
      fun g => !g.isEmpty).length = 1 ∧
    kruskalStep (gbp_data kcAssets kcPersonality) Trait.confidence =
      .ok (none, none) := by
  exact ⟨rfl, rfl⟩

/-- C4 (amended): the Kruskal-Wallis step partitions each trait's GBP values
by allocation category after dropping nulls within the trait; it raises the
explicit error exactly when fewer than two category groups exist — in
particular a GBP subset with a single allocation category raises for every
trait — while with two or more categories an empty group (produced by null
dropping) yields a NaN result without raising. -/
theorem claim_C4 :
    (∀ (rows : List MergedRow) (t : Trait),
       (categories rows).length < 2 →
       kruskalStep rows t = .error "Need at least two groups in stats.kruskal()") ∧
    (∀ (rows : List MergedRow) (t : Trait),
       2 ≤ (categories rows).length →
       ((kruskalGroups rows t).any fun g => g.isEmpty) →
       kruskalStep rows t = .ok (none, none)) ∧
    (∀ t : Trait,
       kruskalStep (gbp_data oneCatAssets oneCatPersonality) t =
         .error "Need at least two groups in stats.kruskal()") := by
  have hlen : ∀ (rows : List MergedRow) (t : Trait),
      (kruskalGroups rows t).length = (categories rows).length := by
    intro rows t
    exact List.length_map _ _
  refine ⟨?_, ?_, ?_⟩
  · intro rows t h
    unfold kruskalStep kruskal
    rw [if_pos]
    rw [hlen rows t]
    exact h
  · intro rows t h2 hany
    unfold kruskalStep kruskal
    rw [if_neg, if_pos hany]
    rw [hlen rows t]
    omega
  · intro t
    cases t <;> rfl

theorem claim_C4_witness :
    (categories (gbp_data oneCatAssets oneCatPersonality)).length < 2 ∧
    kruskalStep (gbp_data oneCatAssets oneCatPersonality) Trait.composure =
      .error "Need at least two groups in stats.kruskal()" :=
  ⟨by decide,
    claim_C4.1 (gbp_data oneCatAssets oneCatPersonality) Trait.composure (by decide)⟩

/-- C5: with exactly one row in the summary table the correlation of the
summed GBP value with every trait is the defined undefined value `none`
(`NaN`) — not a crash, not zero; likewise whenever a trait column is constant
over the available observation pairs. -/
theorem claim_C5 :
    (∀ (r : SummaryRow) (t : Trait), correlations [r] t = none) ∧
    (∀ (rows : List SummaryRow) (t : Trait) (c : ℚ),
       (∀ p ∈ validPairs rows t, p.2 = c) → correlations rows t = none) := by
  constructor
  · intro r t
    cases h : r.trait t with
    | none =>
      simp [correlations, validPairs, h]
    | some v =>
      simp [correlations, validPairs, h, ssd]
  · intro rows t c hc
    unfold correlations
    by_cases hps : (validPairs rows t).length = 0
    · rw [if_pos hps]
    · rw [if_neg hps, if_pos]
      right
      have hlen : ((validPairs rows t).map Prod.snd).length = (validPairs rows t).length :=
        List.length_map _ _
      have hall : ∀ y ∈ (validPairs rows t).map Prod.snd, y = c := by
        intro y hy
        rcases List.mem_map.mp hy with ⟨p, hp, rfl⟩
        exact hc p hp
      have hnz : (((validPairs rows t).map Prod.snd).length : ℚ) ≠ 0 := by
        rw [hlen]
        exact_mod_cast hps
      have hm : ((validPairs rows t).map Prod.snd).sum /
          (((validPairs rows t).map Prod.snd).length : ℚ) = c := by
        rw [List.sum_eq_card_nsmul _ c hall, nsmul_eq_mul]
        field_simp
      unfold ssd
      rw [hm]
      apply List.sum_eq_zero
      intro x hx
      rcases List.mem_map.mp hx with ⟨y, hy, rfl⟩
      rw [hall y hy]
      ring

theorem claim_C5_witness :
    (∀ p ∈ validPairs constRows Trait.confidence, p.2 = 2) ∧
    correlations constRows Trait.confidence = none :=
  ⟨by decide, claim_C5.2 constRows Trait.confidence 2 (by decide)⟩

/-- C8: the regression fit is complete-case — its sample consists exactly of
the summary rows with no null among the six fit columns (the summed value,
being a sum of non-null values, is never null, so completeness is nullness of
the five trait cells), and the reported observation count equals the total row
count minus the number of rows with any such null. -/
theorem claim_C8 (assets : List AssetRecord) (personality : List PersonalityRecord) :
    (∀ r, r ∈ fitSample (gbp_summary (gbp_data assets personality) personality) ↔
       r ∈ gbp_summary (gbp_data assets personality) personality ∧ completeCase r = true) ∧
    regressionNobs (gbp_summary (gbp_data assets personality) personality) =
      (gbp_summary (gbp_data assets personality) personality).length -
        ((gbp_summary (gbp_data assets personality) personality).filter
          fun r => !completeCase r).length ∧
    (∀ r : SummaryRow, completeCase r = true ↔ ∀ t : Trait, (r.trait t).isSome) := by
  have hpart : ∀ l : List SummaryRow,
      (l.filter completeCase).length + (l.filter fun r => !completeCase r).length = l.length := by
    intro l
    induction l with
    | nil => rfl
    | cons r rs ih =>
      by_cases h : completeCase r
      · simp [List.filter_cons, h, ← ih]
        omega
      · simp [List.filter_cons, h, ← ih]
        omega
  refine ⟨fun r => List.mem_filter, ?_, ?_⟩
  · have := hpart (gbp_summary (gbp_data assets personality) personality)
    unfold regressionNobs fitSample
    omega
  · intro r
    constructor
    · intro h t
      cases t <;> simp [completeCase] at h <;> simp [SummaryRow.trait, h]
    · intro h
      have h1 := h Trait.confidence
      have h2 := h Trait.risk_tolerance
      have h3 := h Trait.composure
      have h4 := h Trait.impulsivity
      have h5 := h Trait.impact_desire
      simp [SummaryRow.trait] at h1 h2 h3 h4 h5
      simp [completeCase, h1, h2, h3, h4, h5]

theorem claim_C8_witness :
    regressionNobs (gbp_summary (gbp_data gmAssets gmPersonality) gmPersonality) = 1 ∧
    regressionNobs (gbp_summary (gbp_data gmAssets gmPersonality) gmPersonality) =
      (gbp_summary (gbp_data gmAssets gmPersonality) gmPersonality).length -
        ((gbp_summary (gbp_data gmAssets gmPersonality) gmPersonality).filter
          fun r => !completeCase r).length :=
  ⟨by decide, (claim_C8 gmAssets gmPersonality).2.1⟩

/-- The group-means pipeline for one trait factors through the
allocation/trait-cell projection `gmView`. -/
theorem traitValues_filter_eq_view (l : List MergedRow) (c : String) (t : Trait) :
    traitValues (l.filter fun r => r.asset.asset_allocation == c) t =
      ((l.map (gmView t)).filter fun q => q.1 == c).filterMap Prod.snd := by
  induction l with
  | nil => rfl
  | cons r rs ih =>
    by_cases hc : r.asset.asset_allocation == c
    · cases hv : r.person.trait t <;>
        simp_all [traitValues, List.filter_cons, gmView, List.filterMap_cons]
    · simp_all [traitValues, List.filter_cons, gmView]

/-- C6: each group-means cell is the arithmetic mean of the trait's non-null
values over that category's rows, rounded to 3 decimals; the cell depends only
on the rows' (category, trait-cell) projection for that trait, so a null in
one trait never excludes a row from another trait's mean; category "equity"
with confidence values 0.2 and 0.8 yields mean confidence 0.5. -/
theorem claim_C6 :
    (∀ (rows : List MergedRow) (c : String),
       c ∈ categories rows →
       (c, trait_cols.map fun t => (t, groupMeanEntry rows c t)) ∈
         mean_traits_by_type rows) ∧
    (∀ (rows : List MergedRow) (c : String) (t : Trait),
       traitValues (rows.filter fun r => r.asset.asset_allocation == c) t ≠ [] →
       groupMeanEntry rows c t = some (round3
         ((traitValues (rows.filter fun r => r.asset.asset_allocation == c) t).sum /
           ((traitValues (rows.filter fun r => r.asset.asset_allocation == c) t).length : ℚ)))) ∧
    (∀ (rows rows' : List MergedRow) (c : String) (t : Trait),
       rows.map (gmView t) = rows'.map (gmView t) →
       groupMeanEntry rows c t = groupMeanEntry rows' c t) ∧
    groupMeanEntry (gbp_data gmAssets gmPersonality) "equity" Trait.confidence =
      some (1 / 2) := by
  refine ⟨?_, ?_, ?_, ?_⟩
  · intro rows c hc
    exact List.mem_map.mpr ⟨c, hc, rfl⟩
  · intro rows c t hne
    unfold groupMeanEntry meanOpt
    rw [if_neg (by simpa [List.length_eq_zero] using hne)]
    rfl
  · intro rows rows' c t h
    unfold groupMeanEntry
    rw [traitValues_filter_eq_view rows c t, traitValues_filter_eq_view rows' c t, h]
  · decide

theorem claim_C6_witness :
    traitValues ((gbp_data gmAssets gmPersonality).filter
      fun r => r.asset.asset_allocation == "equity") Trait.confidence ≠ [] ∧
    groupMeanEntry (gbp_data gmAssets gmPersonality) "equity" Trait.confidence =
      some (round3
        ((traitValues ((gbp_data gmAssets gmPersonality).filter
            fun r => r.asset.asset_allocation == "equity") Trait.confidence).sum /
          ((traitValues ((gbp_data gmAssets gmPersonality).filter
            fun r => r.asset.asset_allocation == "equity") Trait.confidence).length : ℚ))) :=
  ⟨by decide,
    claim_C6.2.1 (gbp_data gmAssets gmPersonality) "equity" Trait.confidence (by decide)⟩

/-- A field that needed no quoting contains no delimiter, quote or
line-terminator character. -/
theorem not_needsQuoting_spec {f : List Char} (h : needsQuoting f = false) :
    ',' ∉ f ∧ '"' ∉ f ∧ '\r' ∉ f ∧ '\n' ∉ f := by
  rw [needsQuoting, List.any_eq_false] at h
  refine ⟨fun hm => ?_, fun hm => ?_, fun hm => ?_, fun hm => ?_⟩ <;>
    simpa using h _ hm

theorem joinComma_not_mem {fs : List (List Char)} {ch : Char} (hch : ch ≠ ',')
    (h : ∀ f ∈ fs, ch ∉ f) : ch ∉ joinComma fs := by
  induction fs with
  | nil => simp [joinComma]
  | cons f fs ih =>
    cases fs with
    | nil =>
      simpa [joinComma] using h f (by simp)
    | cons g gs =>
      have hmem : ch ∉ f := h f (by simp)
      have hrest : ch ∉ joinComma (g :: gs) :=
        ih fun f' hf' => h f' (List.mem_cons_of_mem _ hf')
      simp only [joinComma, List.mem_append, List.mem_cons]
      rintro (hf | hc | hj)
      · exact hmem hf
      · exact hch hc
      · exact hrest hj

theorem splitComma_of_not_mem {l : List Char} (h : ',' ∉ l) : splitComma l = [l] := by
  induction l with
  | nil => rfl
  | cons c l ih =>
    have hc : ¬ (c = ',') := fun hc => h (by simp [hc])
    have hl : ',' ∉ l := fun hm => h (List.mem_cons_of_mem _ hm)
    rw [splitComma, if_neg hc, ih hl]

theorem splitComma_append {l : List Char} (rest : List Char) (h : ',' ∉ l) :
    splitComma (l ++ ',' :: rest) = l :: splitComma rest := by
  induction l with
  | nil =>
    rw [List.nil_append, splitComma, if_pos rfl]
  | cons c l ih =>
    have hc : ¬ (c = ',') := fun hc => h (by simp [hc])
    have hl : ',' ∉ l := fun hm => h (List.mem_cons_of_mem _ hm)
    rw [List.cons_append, splitComma, if_neg hc, ih hl]

theorem splitComma_joinComma {fs : List (List Char)} (hne : fs ≠ [])
    (h : ∀ f ∈ fs, ',' ∉ f) : splitComma (joinComma fs) = fs := by
  induction fs with
  | nil => exact absurd rfl hne
  | cons f fs ih =>
    cases fs with
    | nil => exact splitComma_of_not_mem (h f (by simp))
    | cons g gs =>
      rw [joinComma, splitComma_append _ (h f (by simp)),
        ih (List.cons_ne_nil g gs) fun f' hf' => h f' (List.mem_cons_of_mem _ hf')]
      exact fun hh => List.cons_ne_nil g gs hh

theorem splitCRLF_ne_nil (s : List Char) : splitCRLF s ≠ [] := by
  match s with
  | [] => simp [splitCRLF]
  | [c] => simp [splitCRLF]
  | c :: d :: rest =>
    by_cases h : c = '\r' ∧ d = '\n'
    · simp [splitCRLF, h]
    · rw [splitCRLF, if_neg h]
      cases splitCRLF (d :: rest) with
      | nil => simp
      | cons l ls => simp

theorem splitCRLF_append {l : List Char} (rest : List Char) (h : '\r' ∉ l) :
    splitCRLF (l ++ '\r' :: '\n' :: rest) = l :: splitCRLF rest := by
  induction l with
  | nil =>
    rw [List.nil_append, splitCRLF, if_pos ⟨rfl, rfl⟩]
  | cons c l ih =>
    have hc : c ≠ '\r' := fun hc => h (by simp [hc])
    have hl : '\r' ∉ l := fun hm => h (List.mem_cons_of_mem _ hm)
    have hcons : ∃ d rest2, l ++ '\r' :: '\n' :: rest = d :: rest2 := by
      cases l with
      | nil => exact ⟨'\r', '\n' :: rest, rfl⟩
      | cons d l2 => exact ⟨d, l2 ++ '\r' :: '\n' :: rest, rfl⟩
    obtain ⟨d, rest2, hd⟩ := hcons
    have ihd : splitCRLF (d :: rest2) = l :: splitCRLF rest := by
      rw [← hd, ih hl]
    rw [List.cons_append, hd, splitCRLF, if_neg (fun hand => hc hand.1), ihd]

/-- Re-reading a file made of unquoted `\r\n`-terminated lines recovers the
field lists exactly. -/
theorem readCsv_flatten_csvLine (lines : List (List (List Char)))
    (hclean : ∀ fs ∈ lines, ∀ f ∈ fs, needsQuoting f = false ∧ f ≠ [])
    (hne : ∀ fs ∈ lines, fs ≠ []) :
    readCsv ((lines.map csvLine).flatten) = lines := by
  induction lines with
  | nil => rfl
  | cons fs lines ih =>
    have hfs := hclean fs (List.mem_cons_self _ _)
    have hquote : fs.map csvField = fs := by
      have heach : fs.map csvField = fs.map id :=
        List.map_congr_left fun f hf => by simp [csvField, (hfs f hf).1]
      simpa using heach
    have hnotlone : ¬ (fs = [[]]) := by
      intro heq
      exact (hfs [] (by rw [heq]; simp)).2 rfl
    have hline : csvLine fs = joinComma fs ++ ['\r', '\n'] := by
      rw [csvLine, if_neg hnotlone, hquote]
    have hnoCR : '\r' ∉ joinComma fs :=
      joinComma_not_mem (by decide) fun f hf => (not_needsQuoting_spec (hfs f hf).1).2.2.1
    have hnocomma : ∀ f ∈ fs, ',' ∉ f :=
      fun f hf => (not_needsQuoting_spec (hfs f hf).1).1
    have hflat : (((fs :: lines).map csvLine).flatten) =
        joinComma fs ++ '\r' :: '\n' :: ((lines.map csvLine).flatten) := by
      rw [List.map_cons, List.flatten_cons, hline]
      simp
    rw [readCsv, hflat, splitCRLF_append _ hnoCR,
      List.dropLast_cons_of_ne_nil (splitCRLF_ne_nil _), List.map_cons,
      splitComma_joinComma (hne fs (List.mem_cons_self _ _)) hnocomma]
    congr 1
    exact ih (fun fs' h' => hclean fs' (List.mem_cons_of_mem _ h'))
      (fun fs' h' => hne fs' (List.mem_cons_of_mem _ h'))

/-- Looking the fieldnames up in an association list whose key sequence is
exactly the (duplicate-free) fieldnames returns the values in order. -/
theorem lookup_fieldnames {row : JsonObject} {fieldnames : List String}
    (hk : row.map Prod.fst = fieldnames) (hnd : fieldnames.Nodup) :
    fieldnames.map (fun k => (row.lookup k).getD "") = row.map Prod.snd := by
  induction row generalizing fieldnames with
  | nil =>
    subst hk
    rfl
  | cons kv row ih =>
    subst hk
    rw [List.map_cons] at hnd ⊢
    rw [List.nodup_cons] at hnd
    rw [List.map_cons]
    congr 1
    · simp [List.lookup]
    · have hlook : ∀ k ∈ row.map Prod.fst,
          ((kv :: row).lookup k).getD "" = (row.lookup k).getD "" := by
        intro k hkmem
        have hne : (k == kv.1) = false := by
          rw [beq_eq_false_iff_ne]
          intro hkeq
          exact hnd.1 (hkeq ▸ hkmem)
        simp [List.lookup, hne]
      rw [List.map_congr_left hlook]
      exact ih rfl hnd.2

/-- C9: writing a non-empty JSON array of objects through the ingestion writer
and re-reading the delimited file as a table reproduces the first object's
keys (in order) as the header and one row per object holding exactly that
object's values as strings — under the premises that the objects share the
first object's (duplicate-free) key sequence and that keys and values are
non-empty and free of delimiter/quote/terminator characters (the unquoted CSV
regime). -/
theorem claim_C9 (first : JsonObject) (rest : List JsonObject)
    (hfirst : first ≠ [])
    (hnodup : (first.map Prod.fst).Nodup)
    (hkeys : ∀ row ∈ first :: rest, row.map Prod.fst = first.map Prod.fst)
    (hclean : ∀ row ∈ first :: rest, ∀ kv ∈ row,
      (needsQuoting kv.1.toList = false ∧ kv.1.toList ≠ []) ∧
      (needsQuoting kv.2.toList = false ∧ kv.2.toList ≠ [])) :
    readCsv (writeCsv (first :: rest)) =
      (first.map fun kv => kv.1.toList) ::
        (first :: rest).map fun row => row.map fun kv => kv.2.toList := by
  have hrowfields : ∀ row ∈ first :: rest,
      ((first.map Prod.fst).map fun k => ((row.lookup k).getD "").toList) =
        row.map fun kv => kv.2.toList := by
    intro row hrow
    have hlk := lookup_fieldnames (hkeys row hrow) hnodup
    calc ((first.map Prod.fst).map fun k => ((row.lookup k).getD "").toList)
        = (((first.map Prod.fst).map fun k => (row.lookup k).getD "").map
            String.toList) := by
          simp only [List.map_map]
          rfl
      _ = (row.map Prod.snd).map String.toList := by rw [hlk]
      _ = row.map fun kv => kv.2.toList := by
          simp only [List.map_map]
          rfl
  have hw : writeCsv (first :: rest) =
      (((first.map fun kv => kv.1.toList) ::
        (first :: rest).map fun row => row.map fun kv => kv.2.toList).map
          csvLine).flatten := by
    show csvLine ((first.map Prod.fst).map String.toList) ++
        ((first :: rest).map fun row =>
          csvLine ((first.map Prod.fst).map fun k => ((row.lookup k).getD "").toList)).flatten
      = _
    rw [List.map_cons, List.flatten_cons]
    have hmap2 : ((first :: rest).map fun row =>
        csvLine ((first.map Prod.fst).map fun k => ((row.lookup k).getD "").toList))
      = (((first :: rest).map fun row => row.map fun kv => kv.2.toList).map csvLine) := by
      rw [List.map_map]
      exact List.map_congr_left fun row hrow => congrArg csvLine (hrowfields row hrow)
    congr 1
    · rw [List.map_map]
      rfl
    · exact congrArg List.flatten hmap2
  rw [hw]
  apply readCsv_flatten_csvLine
  · intro fs hfs f hf
    rcases List.mem_cons.mp hfs with rfl | hfs
    · rcases List.mem_map.mp hf with ⟨kv, hkv, rfl⟩
      exact (hclean first (List.mem_cons_self _ _) kv hkv).1
    · rcases List.mem_map.mp hfs with ⟨row, hrow, rfl⟩
      rcases List.mem_map.mp hf with ⟨kv, hkv, rfl⟩
      exact (hclean row hrow kv hkv).2
  · intro fs hfs
    rcases List.mem_cons.mp hfs with rfl | hfs
    · intro hnil
      exact hfirst (List.map_eq_nil_iff.mp hnil)
    · rcases List.mem_map.mp hfs with ⟨row, hrow, rfl⟩
      intro hnil
      have hrowne : row ≠ [] := by
        intro hrnil
        have := hkeys row hrow
        rw [hrnil] at this
        exact hfirst (List.map_eq_nil_iff.mp this.symm)
      exact hrowne (List.map_eq_nil_iff.mp hnil)

theorem claim_C9_witness :
    readCsv (writeCsv jsonFixture) =
      ([("_id", "a1"), ("asset_value", "100")].map fun kv => kv.1.toList) ::
        (jsonFixture.map fun row => row.map fun kv => kv.2.toList) :=
  claim_C9 [("_id", "a1"), ("asset_value", "100")] [[("_id", "b2"), ("asset_value", "250")]]
    (by decide) (by decide) (by decide) (by decide)

end OxfordRisk
